import Mathlib

/-!
# Verification of the knx-lens log ingestion and filter engine

Shallow embedding of the core of the `knx-lens` repository:

* `knx_log_utils.py` — format detection, line parsing, cache building,
  incremental append (`detect_log_format`, `_parse_lines_internal`,
  `parse_and_cache_log_data`, `append_new_log_lines`);
* `knx_tui_logic.py` — the display filter (`_process_log_lines`), the
  tail tracker (`_efficient_log_tail`), the tri-state tree marks
  (`_update_node_and_children_prefixes`, `_get_descendant_gas`), and the
  named-filter regex pool (`_rebuild_active_regexes`);
* `knx-lens.py` — the selection toggles (`action_toggle_selection`).

Python strings are Lean `String`s; Python `set[str]` is `Finset String`;
compiled regexes are modelled as match predicates `String → Bool`;
`None`-able values are `Option`s; exceptions caught per line are modelled
by `Option`-returning parsers.  `list.sort(key=...)` (a stable sort) is
modelled by `List.insertionSort` with the corresponding key relation,
which is also stable.  `csv.reader` with delimiter `;` is modelled by
the CPython reader state machine (`csvParse`): quoted fields, doubled
quotes inside quotes, non-strict recovery after a closing quote, and
`csv.Error` — as `none` — for stray text after a mid-line newline
character (end of input inside a quoted field closes the field).
-/

/-! ## String utilities -/

/-- Membership of `needle` as a contiguous part of `hay` (Python's `in`). -/
def listHasPart (needle : List Char) : List Char → Bool
  | [] => needle.isEmpty
  | c :: rest => needle.isPrefixOf (c :: rest) || listHasPart needle rest

/-- Python `needle in s` for strings. -/
def hasSubstr (needle s : String) : Bool :=
  listHasPart needle.toList s.toList

/-- Python `str.strip()`: drop whitespace from both ends.  (Structural
recursion on the character list, so that proofs can evaluate it.) -/
def strTrim (s : String) : String :=
  ⟨((s.data.dropWhile Char.isWhitespace).reverse.dropWhile Char.isWhitespace).reverse⟩

/-- Split a character list at every occurrence of `c` (Python
`str.split(c)` for a one-character separator). -/
def splitCharAux (c : Char) : List Char → List (List Char)
  | [] => [[]]
  | x :: xs =>
    match splitCharAux c xs with
    | [] => [[]]
    | r :: rs => if x = c then [] :: r :: rs else (x :: r) :: rs

/-- Python `s.split(c)` for a one-character separator (all separators in
the source — `|`, `;`, `:`, `.`, a space — are one character). -/
def strSplitOnChar (c : Char) (s : String) : List String :=
  (splitCharAux c s.data).map String.mk

/-- Python `s.startswith(p)`. -/
def strStartsWith (p s : String) : Bool :=
  p.data.isPrefixOf s.data

/-- Value of an all-digit character list (`int(s)` on what `strptime`
accepted). -/
def digitsToNat (cs : List Char) : Nat :=
  cs.foldl (fun acc c => acc * 10 + (c.toNat - 48)) 0

/-- Lexicographic comparison of character lists by code point — how
Python compares the timestamp strings. -/
def charListLe : List Char → List Char → Bool
  | [], _ => true
  | _ :: _, [] => false
  | a :: as, b :: bs =>
    if a.toNat < b.toNat then true
    else if b.toNat < a.toNat then false
    else charListLe as bs

/-- Python `a <= b` on strings. -/
def strLeB (a b : String) : Bool := charListLe a.data b.data

/-- Consume one or more digits at the head of `cs` (the `\d+` of `GA_PATTERN`);
returns the rest on success. -/
def chompDigits (cs : List Char) : Option (List Char) :=
  if (cs.takeWhile Char.isDigit).isEmpty then none
  else some (cs.dropWhile Char.isDigit)

/-- Consume a single `/`. -/
def chompSlash : List Char → Option (List Char)
  | '/' :: rest => some rest
  | _ => none

/-- The pattern `GA_PATTERN` (`\d+/\d+/\d+`) matching at the start of the text
(Python `re.match`; trailing characters allowed).  Since `/` is not a
digit, maximal munch of each `\d+` is equivalent to the regex. -/
def gaMatchAt (cs : List Char) : Bool :=
  (do
    let r1 ← chompDigits cs
    let r2 ← chompSlash r1
    let r3 ← chompDigits r2
    let r4 ← chompSlash r3
    let _ ← chompDigits r4
    pure ()).isSome

/-- Model of `GA_PATTERN.match ga` — anchored at the start. -/
def gaMatch (s : String) : Bool := gaMatchAt s.toList

/-- Helper for `gaSearch`: try to match at every suffix. -/
def gaSearchAux : List Char → Bool
  | [] => false
  | c :: rest => gaMatchAt (c :: rest) || gaSearchAux rest

/-- Model of `GA_PATTERN.search s` — a match anywhere in `s`. -/
def gaSearch (s : String) : Bool := gaSearchAux s.toList

/-! ## Format detection (`knx_log_utils.detect_log_format`) -/

/-- The two recognised log layouts (`LOG_FORMAT_PIPE_SEPARATED`,
`LOG_FORMAT_CSV`). -/
inductive LogFmt where
  | pipe : LogFmt
  | csv : LogFmt
deriving DecidableEq, Repr

/-- The constant `MIN_LOG_FORMAT_CHECK_LINES`. -/
def MIN_LOG_FORMAT_CHECK_LINES : Nat := 20

/-- Model of `detect_log_format(first_lines)`: the first non-empty,
non-separator line decides; a pipe layout (contains `" | "`, more than 4
`|`-fields, 4th field contains an address shape) wins over the `;`
check. -/
def detect_log_format : List String → Option LogFmt
  | [] => none
  | line :: rest =>
    let l := strTrim line
    if l = "" || strStartsWith "=" l then detect_log_format rest
    else if hasSubstr " | " l && decide ((strSplitOnChar '|' l).length > 4)
        && gaSearch ((strSplitOnChar '|' l).getD 3 "") then some .pipe
    else if hasSubstr ";" l then some .csv
    else detect_log_format rest

/-! ## Data model of parsed records -/

/-- The project catalog as the parser uses it: name lookups for devices
(`devices_dict.get(pa, {}).get("name", "N/A")`) and group addresses
(`ga_dict.get(ga, {}).get("name", "N/A")`).  Models `actual_data` after
the wrapper unwrap of `_parse_lines_internal` lines 77–84. -/
structure ProjectData where
  devices : String → Option String
  gaNames : String → Option String

/-- An element of `new_payload_items`. -/
structure PayloadItem where
  ga : String
  timestamp : String
  payload : String
deriving DecidableEq, Repr

/-- An element of `new_cached_items` (the enriched `LogRecord`). -/
structure CacheItem where
  timestamp : String
  pa : String
  paName : String
  ga : String
  gaName : String
  payload : String
  searchString : String
deriving DecidableEq, Repr

/-- An entry of `payload_history[ga]`. -/
structure PHEntry where
  timestamp : String
  payload : String
deriving DecidableEq, Repr

/-! ## Line parsing (`_parse_lines_internal`) -/

/-- One to two digit numeric field of `strptime` within `[lo, hi]`. -/
def parseField2 (lo hi : Nat) (s : String) : Option Nat :=
  if s.data.length = 0 || s.data.length > 2 || !(s.data.all Char.isDigit) then none
  else
    let n := digitsToNat s.data
    if lo ≤ n && n ≤ hi then some n else none

/-- Model of `datetime.strptime` with format `%H:%M:%S`, as seconds since
midnight; `none` models the `ValueError`. -/
def parseTimeHMS (s : String) : Option Nat :=
  match strSplitOnChar ':' s with
  | [h, m, sec] => do
    let hv ← parseField2 0 23 h
    let mv ← parseField2 0 59 m
    let sv ← parseField2 0 59 sec
    pure (hv * 3600 + mv * 60 + sv)
  | _ => none

/-- The time-of-day part of the timestamp (field 1 on spaces, then the part
before the dot) parsed as a time;
`none` models the caught `ValueError`/`IndexError`. -/
def extractLogTime (ts : String) : Option Nat :=
  match strSplitOnChar ' ' ts with
  | _ :: t1 :: _ => parseTimeHMS ((strSplitOnChar '.' t1).getD 0 "")
  | _ => none

/-- States of the CPython `_csv` reader state machine under the default
dialect with delimiter `;` (quote character a double quote, doubled
quotes escape, no escape character, non-strict).  `START_RECORD` is
merged into `startF`: the two differ only on empty input or input
beginning with a newline character, neither of which can reach the
reader here (lines are stripped and non-empty). -/
inductive CsvState where
  | startF : CsvState
  | inF : CsvState
  | inQ : CsvState
  | quoteQ : CsvState
  | eatCRNL : CsvState
deriving DecidableEq

/-- One line through the CPython csv reader, character by character: the
fields of the row, or `none` for `csv.Error` (text following a mid-line
newline character — the only error reachable on a single stripped line;
end of input inside a quoted field simply closes the field).  `acc` is
the current field, reversed; the states are `START_FIELD`, `IN_FIELD`,
`IN_QUOTED_FIELD`, `QUOTE_IN_QUOTED_FIELD` and `EAT_CRNL`, each checking
its conditions in the order of the C source. -/
def csvParse (st : CsvState) (acc : List Char) : List Char → Option (List (List Char))
  | [] =>
    match st with
    | .eatCRNL => some []
    | _ => some [acc.reverse]
  | c :: rest =>
    match st with
    | .startF =>
      if c = '\n' ∨ c = '\r' then (csvParse .eatCRNL [] rest).map (fun fs => [] :: fs)
      else if c = '"' then csvParse .inQ acc rest
      else if c = ';' then (csvParse .startF [] rest).map (fun fs => [] :: fs)
      else csvParse .inF (c :: acc) rest
    | .inF =>
      if c = '\n' ∨ c = '\r' then
        (csvParse .eatCRNL [] rest).map (fun fs => acc.reverse :: fs)
      else if c = ';' then (csvParse .startF [] rest).map (fun fs => acc.reverse :: fs)
      else csvParse .inF (c :: acc) rest
    | .inQ =>
      if c = '"' then csvParse .quoteQ acc rest
      else csvParse .inQ (c :: acc) rest
    | .quoteQ =>
      if c = '"' then csvParse .inQ ('"' :: acc) rest
      else if c = ';' then (csvParse .startF [] rest).map (fun fs => acc.reverse :: fs)
      else if c = '\n' ∨ c = '\r' then
        (csvParse .eatCRNL [] rest).map (fun fs => acc.reverse :: fs)
      else csvParse .inF (c :: acc) rest
    | .eatCRNL =>
      if c = '\n' ∨ c = '\r' then csvParse .eatCRNL acc rest
      else none

/-- Model of `next(csv.reader([clean_line], delimiter=';'))` on one
stripped, non-empty line. -/
def csvReadRow (s : String) : Option (List String) :=
  (csvParse .startF [] s.data).map (fun fs => fs.map String.mk)

/-- Field extraction per format: for `pipe` the stripped `|`-fields
0 (timestamp), 1 (pa), 3 (ga), 5 (payload, optional); for `csv` the
csv-parsed fields 0, 1, 4 and 6.  `none` when the field-count guard
fails (the variables then stay `None` in the source and the line is
skipped) or when the csv reader raises (the caught `csv.Error`). -/
def extractFields (fmt : LogFmt) (clean : String) :
    Option (String × String × String × Option String) :=
  match fmt with
  | .pipe =>
    let parts := (strSplitOnChar '|' clean).map strTrim
    if parts.length > 3 then
      some (parts.getD 0 "", parts.getD 1 "N/A", parts.getD 3 "",
        if parts.length > 5 then some (parts.getD 5 "") else none)
    else none
  | .csv =>
    match csvReadRow clean with
    | none => none
    | some row =>
      if row.length > 4 then
        some (row.getD 0 "", row.getD 1 "N/A", row.getD 4 "",
          if row.length > 6 then some (row.getD 6 "") else none)
      else none

/-- Build the payload item and cache item for an accepted line
(enrichment and `search_string` assembly of lines 127–156). -/
def mkParsedItems (pd : ProjectData) (ts pa ga : String)
    (payload : Option String) : Option PayloadItem × CacheItem :=
  let payloadStr := payload.getD "N/A"
  let paName := (pd.devices pa).getD "N/A"
  let gaName := (pd.gaNames ga).getD "N/A"
  let searchString :=
    ts ++ " " ++ pa ++ " " ++ paName ++ " " ++ ga ++ " " ++ gaName ++ " " ++ payloadStr
  (payload.map fun p => ⟨ga, ts, p⟩,
   ⟨ts, pa, paName, ga, gaName, payloadStr, searchString⟩)

/-- The per-line body of the `_parse_lines_internal` loop: `none` when
the line is skipped (blank, separator, failed guards, time filter, or a
caught exception), otherwise the produced items. -/
def parseLine (pd : ProjectData) (fmt : LogFmt) (tfs tfe : Option Nat)
    (line : String) : Option (Option PayloadItem × CacheItem) :=
  let clean := strTrim line
  if clean = "" || strStartsWith "=" clean then none
  else match extractFields fmt clean with
  | none => none
  | some (ts, pa, ga, payload) =>
    if (ts != "") && (ga != "") && gaMatch ga then
      if tfs.isSome || tfe.isSome then
        match extractLogTime ts with
        | none => none
        | some t =>
          if (match tfs with | some s => decide (t < s) | none => false) then none
          else if (match tfe with | some e => decide (e < t) | none => false) then none
          else some (mkParsedItems pd ts pa ga payload)
      else some (mkParsedItems pd ts pa ga payload)
    else none

/-- Model of `_parse_lines_internal`: the loop appends a payload item (when the
payload is present) and a cache item for every accepted line, in line
order. -/
def parseLinesInternal (lines : List String) (pd : ProjectData) (fmt : LogFmt)
    (tfs tfe : Option Nat) : List PayloadItem × List CacheItem :=
  (lines.filterMap fun l => (parseLine pd fmt tfs tfe l).bind Prod.fst,
   lines.filterMap fun l => (parseLine pd fmt tfs tfe l).map Prod.snd)

/-! ## Payload history and cache building -/

/-- The payload history dict, as a total map (absent keys map to `[]`,
matching `if ga not in payload_history: payload_history[ga] = []`). -/
def Hist := String → List PHEntry

/-- Fold the payload items into the history, appending at the end of
each key's list, in item order. -/
def buildHist (h : Hist) : List PayloadItem → Hist
  | [] => h
  | it :: rest =>
    buildHist (fun ga => if ga = it.ga then h ga ++ [⟨it.timestamp, it.payload⟩] else h ga) rest

/-- Transitivity of the code-point comparison. -/
theorem charListLe_trans : ∀ as bs cs, charListLe as bs = true →
    charListLe bs cs = true → charListLe as cs = true
  | [], _, _, _, _ => rfl
  | _ :: _, [], _, h, _ => by rw [charListLe] at h; exact absurd h (by simp)
  | _ :: _, _ :: _, [], _, h => by rw [charListLe] at h; exact absurd h (by simp)
  | a :: as, b :: bs, c :: cs, h1, h2 => by
    rw [charListLe] at h1 h2 ⊢
    split at h1
    · next hab =>
      split at h2
      · next hbc => rw [if_pos (by omega)]
      · next hbc =>
        split at h2
        · exact absurd h2 (by simp)
        · next hcb => rw [if_pos (by omega)]
    · next hab =>
      split at h1
      · exact absurd h1 (by simp)
      · next hba =>
        split at h2
        · next hbc => rw [if_pos (by omega)]
        · next hbc =>
          split at h2
          · exact absurd h2 (by simp)
          · next hcb =>
            rw [if_neg (by omega), if_neg (by omega)]
            exact charListLe_trans as bs cs h1 h2

/-- Totality of the code-point comparison. -/
theorem charListLe_total : ∀ as bs, charListLe as bs = true ∨ charListLe bs as = true
  | [], _ => Or.inl rfl
  | _ :: _, [] => Or.inr rfl
  | a :: as, b :: bs => by
    rw [charListLe, charListLe]
    by_cases hab : a.toNat < b.toNat
    · exact Or.inl (by rw [if_pos hab])
    · by_cases hba : b.toNat < a.toNat
      · exact Or.inr (by rw [if_pos hba])
      · rcases charListLe_total as bs with h | h
        · exact Or.inl (by rw [if_neg hab, if_neg hba]; exact h)
        · exact Or.inr (by rw [if_neg hba, if_neg hab]; exact h)

/-- Sort key relation of the per-key history sort (by the timestamp field). -/
def phLe (a b : PHEntry) : Prop := strLeB a.timestamp b.timestamp = true

instance : DecidableRel phLe := fun a b => by
  unfold phLe; infer_instance

instance : IsTotal PHEntry phLe :=
  ⟨fun a b => charListLe_total a.timestamp.data b.timestamp.data⟩

instance : IsTrans PHEntry phLe :=
  ⟨fun a b c => charListLe_trans a.timestamp.data b.timestamp.data c.timestamp.data⟩

/-- The content filter of `first_content_lines` in
`parse_and_cache_log_data` (line 184). -/
def isContentLine (l : String) : Bool :=
  (strTrim l != "") && !(strStartsWith "=" (strTrim l))

/-- Model of `parse_and_cache_log_data`: detect the format on the first 20 lines'
content lines, parse everything, build the history and sort each key's
list by timestamp (stable).  An undetectable format yields empty
results. -/
def parseAndCacheLogData (lines : List String) (pd : ProjectData)
    (tfs tfe : Option Nat) : Hist × List CacheItem :=
  match detect_log_format ((lines.take MIN_LOG_FORMAT_CHECK_LINES).filter isContentLine) with
  | none => (fun _ => [], [])
  | some fmt =>
    let pc := parseLinesInternal lines pd fmt tfs tfe
    (fun ga => List.insertionSort phLe (buildHist (fun _ => []) pc.1 ga), pc.2)

/-! ## Incremental append (`append_new_log_lines`) -/

/-- The mutable pair (cache, payload history) that
`append_new_log_lines` updates in place. -/
structure PState where
  cache : List CacheItem
  hist : Hist

/-- The pipe-style line reconstructed from the first cached record
(line 231 of `knx_log_utils.py`). -/
def simulatedLine (e : CacheItem) : String :=
  e.timestamp ++ " | " ++ e.pa ++ " | | " ++ e.ga ++ " | | " ++ e.payload

/-- Format resolution of `append_new_log_lines`: detect on the new
lines' head; on failure, fall back to detecting on the simulated line of
the first cached record (when the cache is non-empty). -/
def resolveAppendFormat (lines : List String) (cache : List CacheItem) : Option LogFmt :=
  match detect_log_format (lines.take MIN_LOG_FORMAT_CHECK_LINES) with
  | some f => some f
  | none =>
    match cache with
    | [] => none
    | first :: _ => detect_log_format [simulatedLine first]

/-- Model of `append_new_log_lines`: returns the newly added cache items and the
updated state; with an unresolved format it returns `[]` and leaves the
state unchanged.  No record is ever evicted. -/
def appendNewLogLines (lines : List String) (pd : ProjectData) (st : PState)
    (tfs tfe : Option Nat) : List CacheItem × PState :=
  match resolveAppendFormat lines st.cache with
  | none => ([], st)
  | some fmt =>
    let pc := parseLinesInternal lines pd fmt tfs tfe
    (pc.2, ⟨st.cache ++ pc.2, buildHist st.hist pc.1⟩)

/-! ## Tail tracking (`_load_log_file_data_only`, `_efficient_log_tail`) -/

/-- Model of `f.readlines()` on a character stream: split after every newline,
keeping the newline, with a possibly unterminated last line. -/
def readLinesAux (acc : List Char) : List Char → List String
  | [] => if acc.isEmpty then [] else [String.mk acc.reverse]
  | c :: rest =>
    if c = '\n' then String.mk (c :: acc).reverse :: readLinesAux [] rest
    else readLinesAux (c :: acc) rest

/-- Model of `f.readlines()` on a whole file content. -/
def readLines (cs : List Char) : List String := readLinesAux [] cs

/-- The tail tracker's remembered values (`last_log_mtime`,
`last_log_position`) together with the data it feeds
(`cached_log_data`, `payload_history`).  Positions are character counts
(byte counts for the ASCII contents considered here). -/
structure TailState where
  lastMtime : Option Nat
  lastPos : Nat
  cache : List CacheItem
  hist : Hist

/-- Model of `_load_log_file_data_only` for an existing plain-text file: read all
lines, remember `f.tell()` (the file length) and the mtime, and rebuild
cache and history from scratch via `parse_and_cache_log_data`. -/
def loadLogFileDataOnly (content : String) (mtime : Nat) (pd : ProjectData)
    (tfs tfe : Option Nat) : TailState :=
  let lines := readLines content.toList
  let r := parseAndCacheLogData lines pd tfs tfe
  ⟨some mtime, content.length, r.2, r.1⟩

/-- What one poll tick of `_efficient_log_tail` does to the log data.  A
transition into `_load_log_file_data_only` would be `fullReload`; no
branch of `_efficient_log_tail` produces it. -/
inductive TailOutcome where
  | noChange : TailOutcome
  | appended : List CacheItem → TailOutcome
  | fullReload : TailOutcome
deriving DecidableEq, Repr

/-- The cache items an outcome contributes. -/
def outcomeItems : TailOutcome → List CacheItem
  | .appended l => l
  | _ => []

/-- One poll tick of `_efficient_log_tail` (lines 292–316): if the mtime
is unchanged, do nothing; otherwise remember the new mtime, read from
the remembered offset (`f.seek(pos); f.readlines()`, which yields
nothing when the file is shorter than `pos`), advance the position to
`f.tell()` (`max pos size`), and hand any new lines to
`append_new_log_lines`. -/
def efficientLogTail (content : String) (mtime : Nat) (pd : ProjectData)
    (st : TailState) (tfs tfe : Option Nat) : TailOutcome × TailState :=
  if some mtime = st.lastMtime then (.noChange, st)
  else
    let newLines := readLines (content.toList.drop st.lastPos)
    let newPos := max st.lastPos content.length
    if newLines.isEmpty then (.noChange, ⟨some mtime, newPos, st.cache, st.hist⟩)
    else
      let r := appendNewLogLines newLines pd ⟨st.cache, st.hist⟩ tfs tfe
      if r.1.isEmpty then (.noChange, ⟨some mtime, newPos, r.2.cache, r.2.hist⟩)
      else (.appended r.1, ⟨some mtime, newPos, r.2.cache, r.2.hist⟩)

/-! ## The display filter (`_process_log_lines`, lines 190–222; the
identical per-item loop of `_efficient_log_tail`, lines 334–356) -/

/-- A compiled regex, by its match behaviour (`rx.search(s)` is
`rx s = true`). -/
def RegexRule := String → Bool

/-- The OR stage: GA pool and named-filter regex pool, with the
"no OR filter configured means show everything" convention; mirrors the
`show_line` computation including the `elif` chain. -/
def showLineOrPool (selectedGas : Finset String) (activeRules : List RegexRule)
    (e : CacheItem) : Bool :=
  let hasGaFilter : Bool := decide (selectedGas ≠ ∅)
  let hasNamedRegexFilter : Bool := !activeRules.isEmpty
  let hasAnyOrFilter := hasGaFilter || hasNamedRegexFilter
  if hasAnyOrFilter then
    if hasGaFilter && decide (e.ga ∈ selectedGas) then true
    else if hasNamedRegexFilter then activeRules.any (fun rx => rx e.searchString)
    else false
  else true

/-- Full visibility decision: OR stage, then the global AND regex
(`self.regex_filter`). -/
def showLine (selectedGas : Finset String) (activeRules : List RegexRule)
    (globalRegex : Option RegexRule) (e : CacheItem) : Bool :=
  showLineOrPool selectedGas activeRules e &&
    (match globalRegex with | none => true | some rx => rx e.searchString)

/-- The list `rows_to_add` of `_process_log_lines` before the paging cut: the
cached records that pass the filter, in cache order. -/
def processLogRows (selectedGas : Finset String) (activeRules : List RegexRule)
    (globalRegex : Option RegexRule) (cache : List CacheItem) : List CacheItem :=
  cache.filter (showLine selectedGas activeRules globalRegex)

/-! ## Trees and selection (`_get_descendant_gas`,
`_update_node_and_children_prefixes`, `action_toggle_selection`) -/

/-- A tree node: its own `data["gas"]` key set and its children. -/
inductive KTree where
  | node : Finset String → List KTree → KTree

/-- The node's own key set. -/
def KTree.gas : KTree → Finset String
  | .node g _ => g

/-- The node's children. -/
def KTree.children : KTree → List KTree
  | .node _ cs => cs

mutual
/-- Model of `_get_descendant_gas`: the node's own keys united with all
descendants' keys. -/
def descendantGas : KTree → Finset String
  | .node g cs => g ∪ descendantGasList cs

/-- Union of `_get_descendant_gas` over a child list. -/
def descendantGasList : List KTree → Finset String
  | [] => ∅
  | c :: cs => descendantGas c ∪ descendantGasList cs
end

/-- The tri-state label head computed at lines 477–484: `"[ ] "` when
the descendant key set is empty or disjoint from the selection, `"[*] "`
when the intersection has full size, `"[-] "` otherwise. -/
def markFor (sel d : Finset String) : String :=
  if d = ∅ then "[ ] "
  else if (sel ∩ d).card = d.card then "[*] "
  else if sel ∩ d ≠ ∅ then "[-] "
  else "[ ] "

/-- A tree node re-labelled with its tri-state mark. -/
inductive MTree where
  | node : String → Finset String → List MTree → MTree

/-- The mark assigned to a relabelled node. -/
def MTree.mark : MTree → String
  | .node m _ _ => m

mutual
/-- Descendant key set of a relabelled tree (same computation as
`descendantGas`). -/
def mDescendantGas : MTree → Finset String
  | .node _ g cs => g ∪ mDescendantGasList cs

/-- Union over a relabelled child list. -/
def mDescendantGasList : List MTree → Finset String
  | [] => ∅
  | c :: cs => mDescendantGas c ∪ mDescendantGasList cs
end

mutual
/-- Model of `_update_node_and_children_prefixes`: recompute the node's mark from
`_get_descendant_gas` and the selection, then recurse into the children
(the display-label text manipulation is rendering-only and elided). -/
def updateMarks (sel : Finset String) : KTree → MTree
  | .node g cs => MTree.node (markFor sel (descendantGas (.node g cs))) g (updateMarksList sel cs)

/-- The map of `updateMarks` over a child list. -/
def updateMarksList (sel : Finset String) : List KTree → List MTree
  | [] => []
  | c :: cs => updateMarks sel c :: updateMarksList sel cs
end

mutual
/-- All nodes of a relabelled tree (the node itself and, recursively,
every node of every child). -/
def mSubtrees : MTree → List MTree
  | .node m g cs => .node m g cs :: mSubtreesList cs

/-- The concatenation of `mSubtrees` over a child list. -/
def mSubtreesList : List MTree → List MTree
  | [] => []
  | c :: cs => mSubtrees c ++ mSubtreesList cs
end

/-- The tree branch of `action_toggle_selection` (`knx-lens.py` lines
470–489), as a function of the focused node, whether it is root-like
(`not node.parent or node.parent.id == "#tree-root"`), and the current
selection. -/
def actionToggleSelectionTree (t : KTree) (isRootLike : Bool)
    (sel : Finset String) : Finset String :=
  let d0 := descendantGas t
  if d0 = ∅ ∧ isRootLike = true then
    let d := descendantGasList t.children
    if d ⊆ sel then sel \ d else sel ∪ d
  else if d0 = ∅ then sel
  else if d0 ⊆ sel then sel \ d0 else sel ∪ d0

/-! ## Named filters (`action_toggle_selection` named-filter branch,
`_rebuild_active_regexes`) -/

/-- A named filter's compiled rules
(`named_filters_rules[name] = {"gas": ..., "regex": ...}`). -/
structure NamedRules where
  gas : Finset String
  regex : List RegexRule

/-- The selection state the filter pools are built from. -/
structure SelState where
  selectedGas : Finset String
  activeNamed : Finset String

/-- The named-filter branch of `action_toggle_selection` (`knx-lens.py`
lines 451–469): activating a filter adds its keys to `selected_gas`,
deactivating it removes them; a missing rule set is a no-op. -/
def toggleNamedFilter (rules : String → Option NamedRules) (name : String)
    (st : SelState) : SelState :=
  match rules name with
  | none => st
  | some r =>
    if name ∈ st.activeNamed then
      ⟨st.selectedGas \ r.gas, st.activeNamed.erase name⟩
    else
      ⟨st.selectedGas ∪ r.gas, insert name st.activeNamed⟩

/-- Model of `_rebuild_active_regexes`: concatenate the regex rules of the active
filters, iterated in `activeList` order. -/
def rebuildActiveRegexes (activeList : List String)
    (rules : String → Option NamedRules) : List RegexRule :=
  activeList.foldl (fun acc f => match rules f with | some r => acc ++ r.regex | none => acc) []

/-! ## C1 — the two-tier OR/AND visibility rule -/

/-- The OR stage agrees with the spec's `or_match` formula. -/
theorem showLineOrPool_iff (sel : Finset String) (rules : List RegexRule) (e : CacheItem) :
    showLineOrPool sel rules e = true ↔
      ((sel = ∅ ∧ rules = []) ∨ e.ga ∈ sel ∨ ∃ rx ∈ rules, rx e.searchString = true) := by
  by_cases hsel : sel = ∅ <;> by_cases hrules : rules = [] <;>
    by_cases hga : e.ga ∈ sel <;>
      simp_all [showLineOrPool, List.any_eq_true]

/-- The full decision agrees with the spec's `visible` formula. -/
theorem showLine_iff (sel : Finset String) (rules : List RegexRule)
    (glob : Option RegexRule) (e : CacheItem) :
    showLine sel rules glob e = true ↔
      (((sel = ∅ ∧ rules = []) ∨ e.ga ∈ sel ∨ ∃ rx ∈ rules, rx e.searchString = true) ∧
        (glob = none ∨ ∃ g, glob = some g ∧ g e.searchString = true)) := by
  cases glob with
  | none => simp [showLine, showLineOrPool_iff]
  | some g => simp [showLine, showLineOrPool_iff]

/-- C1: a cached record is displayed iff ((the OR key pool is empty and
no named-filter regex is active) or its destination key is in the pool
or some active named-filter regex matches its search string) and (no
global regex is configured or the global regex matches its search
string); with no filters at all every cached record is visible, and a
non-empty OR pool with no global regex shows exactly the OR-pool
matches. -/
theorem c1_display_filter_or_and (selectedGas : Finset String)
    (activeRules : List RegexRule) (globalRegex : Option RegexRule)
    (cache : List CacheItem) (r : CacheItem) :
    r ∈ processLogRows selectedGas activeRules globalRegex cache ↔
      (r ∈ cache ∧
        (((selectedGas = ∅ ∧ activeRules = []) ∨ r.ga ∈ selectedGas ∨
            ∃ rx ∈ activeRules, rx r.searchString = true) ∧
          (globalRegex = none ∨
            ∃ g, globalRegex = some g ∧ g r.searchString = true))) := by
  rw [processLogRows, List.mem_filter, showLine_iff]

/-! ## C6 — toggling a tree node -/

/-- C6: toggling a node with descendant key set `D`: if `D` is non-empty
and `D ⊆ selected`, exactly `D` is removed; if `D` is non-empty and not
a subset, all of `D` is added; if `D` is empty and the node has no
children, the selection is unchanged. -/
theorem c6_toggle_selection (t : KTree) (b : Bool) (sel : Finset String) :
    (descendantGas t ≠ ∅ → descendantGas t ⊆ sel →
      actionToggleSelectionTree t b sel = sel \ descendantGas t) ∧
    (descendantGas t ≠ ∅ → ¬ descendantGas t ⊆ sel →
      actionToggleSelectionTree t b sel = sel ∪ descendantGas t) ∧
    (descendantGas t = ∅ → t.children = [] →
      actionToggleSelectionTree t b sel = sel) := by
  refine ⟨fun hne hsub => ?_, fun hne hsub => ?_, fun he hc => ?_⟩
  · rw [actionToggleSelectionTree]
    simp [hne, hsub]
  · rw [actionToggleSelectionTree]
    simp [hne, hsub]
  · rw [actionToggleSelectionTree, hc]
    cases b <;> simp [he, descendantGasList]

/-- Witness for C6 at concrete inputs. -/
theorem c6_toggle_selection_witness :
    actionToggleSelectionTree (KTree.node {"1/1/1"} []) false {"1/1/1"} = ∅ ∧
    actionToggleSelectionTree (KTree.node {"1/1/1"} []) false {"2/2/2"} =
      {"2/2/2", "1/1/1"} ∧
    actionToggleSelectionTree (KTree.node ∅ []) false {"2/2/2"} = {"2/2/2"} := by
  refine ⟨?_, ?_, ?_⟩
  · exact ((c6_toggle_selection (KTree.node {"1/1/1"} []) false {"1/1/1"}).1
      (by decide) (by decide)).trans (by decide)
  · exact ((c6_toggle_selection (KTree.node {"1/1/1"} []) false {"2/2/2"}).2.1
      (by decide) (by decide)).trans (by decide)
  · exact (c6_toggle_selection (KTree.node ∅ []) false {"2/2/2"}).2.2
      (by decide) rfl

/-! ## C5 — tri-state marks -/

/-- Set-level reading of the cardinality test of line 481:
`len(sel ∩ d) == len(d)` is exactly `d ⊆ sel`. -/
theorem inter_card_eq_iff_subset (sel d : Finset String) :
    (sel ∩ d).card = d.card ↔ d ⊆ sel := by
  constructor
  · intro h
    have hsub : sel ∩ d = d :=
      Finset.eq_of_subset_of_card_le (Finset.inter_subset_right) (le_of_eq h.symm)
    exact hsub ▸ Finset.inter_subset_left
  · intro h
    rw [Finset.inter_eq_right.mpr h]

/-- The mark computation satisfies the tri-state specification. -/
theorem markFor_spec (sel d : Finset String) :
    (markFor sel d = "[*] " ↔ d ≠ ∅ ∧ d ⊆ sel) ∧
    (markFor sel d = "[ ] " ↔ sel ∩ d = ∅) ∧
    (markFor sel d = "[-] " ↔ ¬(d ≠ ∅ ∧ d ⊆ sel) ∧ sel ∩ d ≠ ∅) := by
  by_cases hd : d = ∅
  · subst hd
    refine ⟨?_, ?_, ?_⟩ <;> simp [markFor]
  · by_cases hc : (sel ∩ d).card = d.card
    · have hsub : d ⊆ sel := (inter_card_eq_iff_subset sel d).mp hc
      have hne : sel ∩ d ≠ ∅ := by
        rw [Finset.inter_eq_right.mpr hsub]; exact hd
      refine ⟨?_, ?_, ?_⟩ <;> simp [markFor, hd, hc, hsub, hne]
    · have hnsub : ¬ d ⊆ sel := fun h => hc ((inter_card_eq_iff_subset sel d).mpr h)
      have hcard : d.card ≠ 0 := by simpa [Finset.card_eq_zero] using hd
      have hcard0 : ¬ (0 = d.card) := fun h => hcard h.symm
      by_cases hi : sel ∩ d = ∅
      · refine ⟨?_, ?_, ?_⟩ <;>
          simp [markFor, hd, hc, hi, hnsub, hcard0]
      · refine ⟨?_, ?_, ?_⟩ <;> simp [markFor, hd, hc, hi, hnsub]

mutual
/-- Relabelling does not change the descendant key set. -/
theorem mDesc_updateMarks (sel : Finset String) :
    ∀ t, mDescendantGas (updateMarks sel t) = descendantGas t
  | .node g cs => by
    rw [updateMarks, mDescendantGas, descendantGas, mDescList_updateMarks sel cs]

/-- List version of `mDesc_updateMarks`. -/
theorem mDescList_updateMarks (sel : Finset String) :
    ∀ cs, mDescendantGasList (updateMarksList sel cs) = descendantGasList cs
  | [] => by rw [updateMarksList, mDescendantGasList, descendantGasList]
  | c :: cs => by
    rw [updateMarksList, mDescendantGasList, descendantGasList,
      mDesc_updateMarks sel c, mDescList_updateMarks sel cs]
end

mutual
/-- Every node of the relabelled tree carries the mark computed from its
own descendant key set. -/
theorem mark_updateMarks (sel : Finset String) :
    ∀ t, ∀ u ∈ mSubtrees (updateMarks sel t), u.mark = markFor sel (mDescendantGas u)
  | .node g cs => by
    intro u hu
    simp only [updateMarks, mSubtrees] at hu
    rcases List.mem_cons.mp hu with h | h
    · subst h
      simp only [MTree.mark, mDescendantGas, mDescList_updateMarks sel cs, descendantGas]
    · exact mark_updateMarksList sel cs u h

/-- List version of `mark_updateMarks`. -/
theorem mark_updateMarksList (sel : Finset String) :
    ∀ cs, ∀ u ∈ mSubtreesList (updateMarksList sel cs), u.mark = markFor sel (mDescendantGas u)
  | [], u, hu => by rw [updateMarksList, mSubtreesList] at hu; exact absurd hu (by simp)
  | c :: cs, u, hu => by
    rw [updateMarksList, mSubtreesList] at hu
    rcases List.mem_append.mp hu with h | h
    · exact mark_updateMarks sel c u h
    · exact mark_updateMarksList sel cs u h
end

/-- C5: after a prefix update, every node's mark is `"[*] "` iff its
descendant key set is non-empty and contained in the selection, `"[ ] "`
iff the intersection with the selection is empty (including an empty
descendant set), and `"[-] "` otherwise. -/
theorem c5_tristate_marks (sel : Finset String) (t : KTree) (u : MTree)
    (hu : u ∈ mSubtrees (updateMarks sel t)) :
    (u.mark = "[*] " ↔ mDescendantGas u ≠ ∅ ∧ mDescendantGas u ⊆ sel) ∧
    (u.mark = "[ ] " ↔ sel ∩ mDescendantGas u = ∅) ∧
    (u.mark = "[-] " ↔
      ¬(mDescendantGas u ≠ ∅ ∧ mDescendantGas u ⊆ sel) ∧ sel ∩ mDescendantGas u ≠ ∅) := by
  rw [mark_updateMarks sel t u hu]
  exact markFor_spec sel (mDescendantGas u)

/-- Every tree is the head of its own subtree list. -/
theorem self_mem_mSubtrees (u : MTree) : u ∈ mSubtrees u := by
  cases u with
  | node m g cs =>
    simp only [mSubtrees]
    exact List.mem_cons_self _ _

/-- Witness for C5 at a concrete tree and selection: the root of a tree
with one selected and one unselected leaf gets the partial mark. -/
theorem c5_tristate_marks_witness :
    (updateMarks {"1/1/1"}
      (KTree.node ∅ [KTree.node {"1/1/1"} [], KTree.node {"2/2/2"} []])).mark = "[-] " := by
  have h := (c5_tristate_marks {"1/1/1"}
    (KTree.node ∅ [KTree.node {"1/1/1"} [], KTree.node {"2/2/2"} []])
    (updateMarks {"1/1/1"}
      (KTree.node ∅ [KTree.node {"1/1/1"} [], KTree.node {"2/2/2"} []]))
    (self_mem_mSubtrees _)).2.2
  refine h.mpr ?_
  constructor
  · decide
  · decide

/-! ## C8 — effective filter pools -/

/-- Membership in the rebuilt regex pool, with any accumulator. -/
theorem mem_rebuildActiveRegexes_aux (rules : String → Option NamedRules)
    (rx : RegexRule) :
    ∀ (l : List String) (acc : List RegexRule),
      rx ∈ l.foldl (fun acc f => match rules f with | some r => acc ++ r.regex | none => acc) acc ↔
        rx ∈ acc ∨ ∃ f ∈ l, ∃ nr, rules f = some nr ∧ rx ∈ nr.regex := by
  intro l
  induction l with
  | nil => simp
  | cons f fs ih =>
    intro acc
    cases hf : rules f with
    | none =>
      simp only [List.foldl_cons, hf, ih, List.mem_cons]
      constructor
      · rintro (h | ⟨g, hg, h⟩)
        · exact Or.inl h
        · exact Or.inr ⟨g, Or.inr hg, h⟩
      · rintro (h | ⟨g, hg | hg, h⟩)
        · exact Or.inl h
        · subst hg
          rcases h with ⟨nr, hnr, _⟩
          rw [hf] at hnr
          cases hnr
        · exact Or.inr ⟨g, hg, h⟩
    | some r =>
      simp only [List.foldl_cons, hf, ih, List.mem_append, List.mem_cons]
      constructor
      · rintro ((h | h) | ⟨g, hg, h⟩)
        · exact Or.inl h
        · exact Or.inr ⟨f, Or.inl rfl, r, hf, h⟩
        · exact Or.inr ⟨g, Or.inr hg, h⟩
      · rintro (h | ⟨g, hg | hg, h⟩)
        · exact Or.inl (Or.inl h)
        · subst hg
          rcases h with ⟨nr, hnr, hmem⟩
          rw [hf] at hnr
          cases hnr
          exact Or.inl (Or.inr hmem)
        · exact Or.inr ⟨g, hg, h⟩

/-- The named-filter rule table used in the C8 scenario: one filter
`"A"` whose only rule is the exact key `1/1/1`. -/
def rulesC8 : String → Option NamedRules :=
  fun n => if n = "A" then some ⟨{"1/1/1"}, []⟩ else none

/-- Counterexample to C8 as stated: select `1/1/1` via the tree, then
activate and deactivate filter `"A"` (whose key set also holds `1/1/1`);
the key pool ends empty, not equal to the tree-selected keys. -/
theorem c8_counterexample :
    (toggleNamedFilter rulesC8 "A" (toggleNamedFilter rulesC8 "A"
        ⟨actionToggleSelectionTree (KTree.node {"1/1/1"} []) false ∅, ∅⟩)).selectedGas = ∅ ∧
      (∅ : Finset String) ≠
        actionToggleSelectionTree (KTree.node {"1/1/1"} []) false ∅ := by
  constructor
  · decide
  · decide

/-- C8 amended: the evaluator tests keys against `selected_gas` itself;
activating a filter adds its keys, deactivating removes them, so an
activate–deactivate round trip yields the prior keys minus the filter's
keys and restores the prior pool exactly when the filter's keys are
disjoint from it.  The active regex pool does equal the union of the
active filters' regex rules. -/
theorem c8_amended_pools (rules : String → Option NamedRules) (name : String)
    (st : SelState) (r : NamedRules) (hr : rules name = some r)
    (hact : name ∉ st.activeNamed) :
    (toggleNamedFilter rules name st).selectedGas = st.selectedGas ∪ r.gas ∧
    (toggleNamedFilter rules name (toggleNamedFilter rules name st)).selectedGas
      = st.selectedGas \ r.gas ∧
    (st.selectedGas ∩ r.gas = ∅ →
      (toggleNamedFilter rules name (toggleNamedFilter rules name st)).selectedGas
        = st.selectedGas) ∧
    (∀ (activeList : List String) (rx : RegexRule),
      rx ∈ rebuildActiveRegexes activeList rules ↔
        ∃ f ∈ activeList, ∃ nr, rules f = some nr ∧ rx ∈ nr.regex) := by
  have h1 : toggleNamedFilter rules name st =
      ⟨st.selectedGas ∪ r.gas, insert name st.activeNamed⟩ := by
    rw [toggleNamedFilter, hr]
    simp [hact]
  have h2 : (toggleNamedFilter rules name (toggleNamedFilter rules name st)).selectedGas
      = st.selectedGas \ r.gas := by
    rw [h1, toggleNamedFilter, hr]
    simp only [Finset.mem_insert_self, if_pos]
    have : (st.selectedGas ∪ r.gas) \ r.gas = st.selectedGas \ r.gas := by
      ext a
      simp only [Finset.mem_sdiff, Finset.mem_union]
      tauto
    exact this
  refine ⟨by rw [h1], h2, fun hdisj => ?_, fun l rx => ?_⟩
  · rw [h2]
    ext a
    simp only [Finset.mem_sdiff]
    constructor
    · exact fun h => h.1
    · intro ha
      refine ⟨ha, fun hg => ?_⟩
      exact Finset.eq_empty_iff_forall_not_mem.mp hdisj a (Finset.mem_inter.mpr ⟨ha, hg⟩)
  · rw [rebuildActiveRegexes, mem_rebuildActiveRegexes_aux]
    simp

/-- Witness for the amended C8: with disjoint tree keys, the round trip
restores the pool. -/
theorem c8_amended_pools_witness :
    (toggleNamedFilter rulesC8 "A" (toggleNamedFilter rulesC8 "A"
        ⟨{"2/2/2"}, ∅⟩)).selectedGas = {"2/2/2"} :=
  (c8_amended_pools rulesC8 "A" ⟨{"2/2/2"}, ∅⟩ ⟨{"1/1/1"}, []⟩ rfl
    (by decide)).2.2.1 (by decide)

/-! ## Parsing pipeline lemmas -/

/-- The parser processes line by line, so it distributes
over concatenation of line lists. -/
theorem parseLinesInternal_append (l1 l2 : List String) (pd : ProjectData)
    (fmt : LogFmt) (tfs tfe : Option Nat) :
    parseLinesInternal (l1 ++ l2) pd fmt tfs tfe =
      ((parseLinesInternal l1 pd fmt tfs tfe).1 ++ (parseLinesInternal l2 pd fmt tfs tfe).1,
       (parseLinesInternal l1 pd fmt tfs tfe).2 ++ (parseLinesInternal l2 pd fmt tfs tfe).2) := by
  simp [parseLinesInternal, List.filterMap_append]

/-- The history entries a list of payload items contributes to one key,
in item order. -/
def perGaEntries (items : List PayloadItem) (ga : String) : List PHEntry :=
  (items.filter fun it => it.ga = ga).map fun it => ⟨it.timestamp, it.payload⟩

/-- Pointwise evaluation of `buildHist`: each key's list is extended by
that key's items, in order. -/
theorem buildHist_eval (items : List PayloadItem) :
    ∀ (h : Hist) (ga : String), buildHist h items ga = h ga ++ perGaEntries items ga := by
  induction items with
  | nil => intro h ga; simp [buildHist, perGaEntries]
  | cons it rest ih =>
    intro h ga
    rw [buildHist, ih]
    by_cases hga : ga = it.ga
    · subst hga
      simp [perGaEntries, List.filter_cons]
    · have : ¬ (it.ga = ga) := fun hh => hga hh.symm
      simp [perGaEntries, List.filter_cons, hga, this]

/-- The map `perGaEntries` distributes over concatenation. -/
theorem perGaEntries_append (a b : List PayloadItem) (ga : String) :
    perGaEntries (a ++ b) ga = perGaEntries a ga ++ perGaEntries b ga := by
  simp [perGaEntries, List.filter_append]

/-- The trivial project catalog (every lookup misses). -/
def pdEmpty : ProjectData := ⟨fun _ => none, fun _ => none⟩

/-- A well-formed pipe-layout log line. -/
def goodPipeLine : String := "08:00:00 | 1.1.1 | x | 1/2/3 | y | 5"

/-- Any line list headed by `goodPipeLine` is detected as pipe layout. -/
theorem detect_goodPipeLine_cons (rest : List String) :
    detect_log_format (goodPipeLine :: rest) = some LogFmt.pipe := by
  rw [detect_log_format, if_neg (by decide), if_pos (by decide)]

/-- The length of a `filterMap` over a replicated accepted element. -/
theorem length_filterMap_replicate {α β : Type} (f : α → Option β) (a : α) (b : β)
    (hf : f a = some b) : ∀ n, (List.filterMap f (List.replicate n a)).length = n := by
  intro n
  induction n with
  | zero => simp
  | succ k ih => simp [List.replicate_succ, List.filterMap_cons, hf, ih]

/-! ## C2 — the eviction bound -/

/-- Counterexample to C2: no cap bounds the cache.  For any candidate
`MAX_CACHE_SIZE`, a full load of `cap + 1` well-formed lines yields a
cache of length `cap + 1` — neither `parse_and_cache_log_data` nor
`append_new_log_lines` nor the tail tick evicts anything (no
`MAX_CACHE_SIZE` exists in the source). -/
theorem c2_counterexample :
    ¬ ∃ cap : Nat, ∀ (lines : List String),
        ((parseAndCacheLogData lines pdEmpty none none).2).length ≤ cap := by
  rintro ⟨cap, h⟩
  have hlen : ((parseAndCacheLogData (List.replicate (cap + 1) goodPipeLine)
      pdEmpty none none).2).length = cap + 1 := by
    have htake : (List.replicate (cap + 1) goodPipeLine).take MIN_LOG_FORMAT_CHECK_LINES
        = List.replicate (min MIN_LOG_FORMAT_CHECK_LINES (cap + 1)) goodPipeLine := by
      rw [List.take_replicate]
    have hmin : min MIN_LOG_FORMAT_CHECK_LINES (cap + 1)
        = Nat.succ (min MIN_LOG_FORMAT_CHECK_LINES (cap + 1) - 1) := by
      have : 0 < min MIN_LOG_FORMAT_CHECK_LINES (cap + 1) := by
        rw [MIN_LOG_FORMAT_CHECK_LINES]; omega
      omega
    have hdet : detect_log_format
        (((List.replicate (cap + 1) goodPipeLine).take MIN_LOG_FORMAT_CHECK_LINES).filter
          isContentLine) = some LogFmt.pipe := by
      rw [htake, hmin, List.replicate_succ, List.filter_cons, if_pos (by decide)]
      rw [List.filter_replicate]
      rw [if_pos (by decide)]
      exact detect_goodPipeLine_cons _
    rw [parseAndCacheLogData, hdet]
    simp only [parseLinesInternal]
    exact length_filterMap_replicate
      (fun l => (parseLine pdEmpty LogFmt.pipe none none l).map Prod.snd) goodPipeLine
      (⟨"08:00:00", "1.1.1", "N/A", "1/2/3", "N/A", "5",
        "08:00:00 1.1.1 N/A 1/2/3 N/A 5"⟩ : CacheItem)
      (by decide) (cap + 1)
  have := h (List.replicate (cap + 1) goodPipeLine)
  omega

/-- C2 amended: nothing is ever evicted: an append extends the cache by
exactly the newly parsed records, a tail tick extends it by exactly the
outcome's items, and a full load keeps every parsed record; the cache is
unbounded. -/
theorem c2_amended_no_eviction :
    (∀ (lines : List String) (pd : ProjectData) (st : PState) (tfs tfe : Option Nat),
      ((appendNewLogLines lines pd st tfs tfe).2).cache
        = st.cache ++ (appendNewLogLines lines pd st tfs tfe).1) ∧
    (∀ (content : String) (mtime : Nat) (pd : ProjectData) (st : TailState)
        (tfs tfe : Option Nat),
      ((efficientLogTail content mtime pd st tfs tfe).2).cache
        = st.cache ++ outcomeItems (efficientLogTail content mtime pd st tfs tfe).1) ∧
    (∀ (lines : List String) (pd : ProjectData) (tfs tfe : Option Nat) (fmt : LogFmt),
      detect_log_format ((lines.take MIN_LOG_FORMAT_CHECK_LINES).filter isContentLine)
          = some fmt →
      (parseAndCacheLogData lines pd tfs tfe).2 = (parseLinesInternal lines pd fmt tfs tfe).2) := by
  have happ : ∀ (lines : List String) (pd : ProjectData) (st : PState) (tfs tfe : Option Nat),
      ((appendNewLogLines lines pd st tfs tfe).2).cache
        = st.cache ++ (appendNewLogLines lines pd st tfs tfe).1 := by
    intro lines pd st tfs tfe
    rw [appendNewLogLines]
    cases resolveAppendFormat lines st.cache with
    | none => simp
    | some fmt => simp
  refine ⟨happ, ?_, ?_⟩
  · intro content mtime pd st tfs tfe
    simp only [efficientLogTail]
    split
    · simp [outcomeItems]
    · split
      · simp [outcomeItems]
      · split
        · next hnil =>
          simp only [outcomeItems]
          rw [happ]
          simp only [List.append_nil, List.append_cancel_left_eq]
          simpa using hnil
        · next hnil =>
          simp only [outcomeItems]
          exact happ _ _ _ _ _
  · intro lines pd tfs tfe fmt hdet
    rw [parseAndCacheLogData, hdet]

/-- Witness for the amended C2 at concrete inputs. -/
theorem c2_amended_no_eviction_witness :
    (parseAndCacheLogData [goodPipeLine] pdEmpty none none).2
      = (parseLinesInternal [goodPipeLine] pdEmpty LogFmt.pipe none none).2 :=
  c2_amended_no_eviction.2.2 [goodPipeLine] pdEmpty none none LogFmt.pipe (by decide)

/-! ## C7 — malformed-line tolerance -/

/-- The claim's notion of "well-formed": no CSV parse error, the field
count suffices, and the destination key matches the address-shape
pattern. -/
def claimWellFormed (fmt : LogFmt) (line : String) : Bool :=
  match fmt with
  | .pipe =>
    let parts := (strSplitOnChar '|' (strTrim line)).map strTrim
    decide (parts.length > 3) && gaMatch (parts.getD 3 "")
  | .csv =>
    match csvReadRow (strTrim line) with
    | none => false
    | some row => decide (row.length > 4) && gaMatch (row.getD 4 "")

/-- The lines the code actually accepts (with no time filter): non-blank,
not a separator, no csv parse error, sufficient field count, non-empty
timestamp field, and an address-shaped non-empty destination key. -/
def lineAccepted (fmt : LogFmt) (line : String) : Bool :=
  let clean := strTrim line
  (clean != "") && !(strStartsWith "=" clean) &&
    (match fmt with
     | .pipe =>
       let parts := (strSplitOnChar '|' clean).map strTrim
       decide (parts.length > 3) && (parts.getD 0 "" != "") && (parts.getD 3 "" != "")
         && gaMatch (parts.getD 3 "")
     | .csv =>
       match csvReadRow clean with
       | none => false
       | some row =>
         decide (row.length > 4) && (row.getD 0 "" != "") && (row.getD 4 "" != "")
           && gaMatch (row.getD 4 ""))

/-- Spot checks of the csv model against observed CPython behaviour: a
quoted destination field is unquoted and the line accepted, a doubled
quote collapses, a quoted field closed by end of input is kept, and text
after a bare carriage return raises (the line is skipped). -/
theorem csvReadRow_spot_checks :
    csvReadRow "10:00:00;1.1.1;a;b;\"1/2/3\";c;42"
      = some ["10:00:00", "1.1.1", "a", "b", "1/2/3", "c", "42"] ∧
    lineAccepted LogFmt.csv "10:00:00;1.1.1;a;b;\"1/2/3\";c;42" = true ∧
    (parseLine pdEmpty LogFmt.csv none none
      "10:00:00;1.1.1;a;b;\"1/2/3\";c;42").isSome = true ∧
    csvReadRow "\"a\"\"b\";c" = some ["a\"b", "c"] ∧
    csvReadRow "a;\"unterminated" = some ["a", "unterminated"] ∧
    csvReadRow "a\rb;c" = none := by
  refine ⟨by decide, by decide, by decide, by decide, by decide, by decide⟩

/-- Evaluation of `isSome` on a guarded `some`. -/
theorem isSome_ite_some_none {α : Type} (b : Bool) (x : α) :
    (if b = true then some x else none).isSome = b := by
  cases b <;> simp

/-- With no time filter, a line yields a record exactly when
`lineAccepted` holds. -/
theorem parseLine_isSome_eq (pd : ProjectData) (fmt : LogFmt) (line : String) :
    (parseLine pd fmt none none line).isSome = lineAccepted fmt line := by
  rw [parseLine, lineAccepted.eq_def]
  by_cases hb : (decide (strTrim line = "") || strStartsWith "=" (strTrim line)) = true
  · rw [if_pos hb]
    rcases (by simpa using hb :
        strTrim line = "" ∨ strStartsWith "=" (strTrim line) = true) with h1 | h1
    · simp [h1]
    · simp [h1]
  · rw [if_neg hb]
    have hparts := hb
    simp only [Bool.or_eq_true, decide_eq_true_eq, not_or] at hparts
    obtain ⟨h1, hsw0⟩ := hparts
    have hsw : strStartsWith "=" (strTrim line) = false := by
      cases hx : strStartsWith "=" (strTrim line) with
      | false => rfl
      | true => exact absurd hx hsw0
    cases fmt
    · by_cases hlen : 3 < (strSplitOnChar '|' (strTrim line)).length
      · have hlen' : ((strSplitOnChar '|' (strTrim line)).map strTrim).length > 3 := by
          simpa using hlen
        simp only [extractFields, if_pos hlen']
        simp only [Option.isSome_none, Bool.or_self, Bool.false_eq_true, if_false]
        rw [isSome_ite_some_none, Bool.eq_iff_iff]
        simp [h1, hsw, hlen, and_assoc]
      · have hlen' : ¬ ((strSplitOnChar '|' (strTrim line)).map strTrim).length > 3 := by
          simpa using hlen
        simp only [extractFields, if_neg hlen']
        simp [hlen]
    · cases hrow : csvReadRow (strTrim line) with
      | none =>
        simp only [extractFields, hrow]
        simp [hsw]
      | some row =>
        by_cases hlen : 4 < row.length
        · simp only [extractFields, hrow, if_pos hlen]
          simp only [Option.isSome_none, Bool.or_self, Bool.false_eq_true, if_false]
          rw [isSome_ite_some_none, Bool.eq_iff_iff]
          simp [h1, hsw, hlen, and_assoc]
        · simp only [extractFields, hrow, if_neg hlen]
          simp [hlen]

/-- The length of a `filterMap` counts the accepted elements. -/
theorem length_filterMap_eq_countP {α β : Type} (f : α → Option β) (l : List α) :
    (l.filterMap f).length = l.countP (fun a => (f a).isSome) := by
  induction l with
  | nil => rfl
  | cons a rest ih =>
    cases hf : f a with
    | none => simp [List.filterMap_cons, List.countP_cons, hf, ih]
    | some b => simp [List.filterMap_cons, List.countP_cons, hf, ih]

/-- Counterexample to C7 as stated: the pipe line
`"| 1.1.1 | x | 1/2/3 | y | v"` has 6 fields and an address-shaped
destination key — well-formed under the claim's enumeration of malformed
lines — yet it yields no record (its timestamp field is empty). -/
theorem c7_counterexample :
    claimWellFormed LogFmt.pipe "| 1.1.1 | x | 1/2/3 | y | v" = true ∧
      (parseLinesInternal ["| 1.1.1 | x | 1/2/3 | y | v"] pdEmpty LogFmt.pipe
        none none).2 = [] := by
  constructor
  · decide
  · decide

/-- C7 amended: the parser is total (no failure aborts the rest): each
line is decided individually, a line yields a record exactly when it is
non-blank, not a separator, has the required field count, a non-empty
timestamp field and an address-shaped destination key; the record count
is the count of such lines (blank, separator and empty-timestamp lines
are additional skips beyond the claim's malformed classes). -/
theorem c7_amended_per_line_tolerance (pd : ProjectData) (fmt : LogFmt) :
    (∀ line : String,
      (parseLine pd fmt none none line).isSome = lineAccepted fmt line) ∧
    (∀ lines : List String,
      ((parseLinesInternal lines pd fmt none none).2).length
        = lines.countP (lineAccepted fmt)) := by
  refine ⟨parseLine_isSome_eq pd fmt, fun lines => ?_⟩
  rw [parseLinesInternal]
  rw [length_filterMap_eq_countP]
  apply List.countP_congr
  intro a _
  have h := parseLine_isSome_eq pd fmt a
  cases hp : parseLine pd fmt none none a <;> rw [hp] at h <;> simp [← h]

/-! ## C9 — payload-history ordering -/

/-- Counterexample to C9 as stated: a full load of a `09:00:00` record
followed by an append of an `08:00:00` record for the same key leaves
that key's history unsorted — `append_new_log_lines` only appends, it
never re-sorts. -/
theorem c9_counterexample :
    ¬ List.Sorted phLe
      (((appendNewLogLines ["08:00:00 | 1.1.1 | x | 1/2/3 | y | 4"] pdEmpty
        ⟨(parseAndCacheLogData ["09:00:00 | 1.1.1 | x | 1/2/3 | y | 5"] pdEmpty none none).2,
         (parseAndCacheLogData ["09:00:00 | 1.1.1 | x | 1/2/3 | y | 5"] pdEmpty none none).1⟩
        none none).2).hist "1/2/3") := by
  decide

/-- C9 amended: after a full load every key's history is sorted
ascending by timestamp; an append keeps a key's history sorted exactly
when extending it with the appended items (in order) is still sorted —
the appended items are concatenated as parsed, never re-sorted. -/
theorem c9_amended_history_sorted :
    (∀ (lines : List String) (pd : ProjectData) (tfs tfe : Option Nat) (ga : String),
      List.Sorted phLe ((parseAndCacheLogData lines pd tfs tfe).1 ga)) ∧
    (∀ (lines : List String) (pd : ProjectData) (st : PState) (tfs tfe : Option Nat)
        (ga : String),
      List.Sorted phLe (st.hist ga) →
      (∀ fmt, resolveAppendFormat lines st.cache = some fmt →
        List.Sorted phLe
          (st.hist ga ++ perGaEntries (parseLinesInternal lines pd fmt tfs tfe).1 ga)) →
      List.Sorted phLe (((appendNewLogLines lines pd st tfs tfe).2).hist ga)) := by
  constructor
  · intro lines pd tfs tfe ga
    cases hdet : detect_log_format
        ((lines.take MIN_LOG_FORMAT_CHECK_LINES).filter isContentLine) with
    | none =>
      rw [parseAndCacheLogData, hdet]
      exact List.sorted_nil
    | some fmt =>
      rw [parseAndCacheLogData, hdet]
      exact List.sorted_insertionSort phLe _
  · intro lines pd st tfs tfe ga h1 h2
    cases hres : resolveAppendFormat lines st.cache with
    | none =>
      rw [appendNewLogLines, hres]
      exact h1
    | some fmt =>
      rw [appendNewLogLines, hres]
      have := h2 fmt hres
      simpa [buildHist_eval] using this

/-- Witness for the amended C9 at concrete inputs. -/
theorem c9_amended_history_sorted_witness :
    List.Sorted phLe ((parseAndCacheLogData [goodPipeLine] pdEmpty none none).1 "1/2/3") ∧
    List.Sorted phLe
      (((appendNewLogLines [goodPipeLine] pdEmpty ⟨[], fun _ => []⟩ none none).2).hist "1/2/3") := by
  constructor
  · exact c9_amended_history_sorted.1 [goodPipeLine] pdEmpty none none "1/2/3"
  · refine c9_amended_history_sorted.2 [goodPipeLine] pdEmpty ⟨[], fun _ => []⟩
      none none "1/2/3" List.sorted_nil ?_
    intro fmt hfmt
    have hpipe : resolveAppendFormat [goodPipeLine] ([] : List CacheItem)
        = some LogFmt.pipe := by decide
    rw [hpipe] at hfmt
    cases hfmt
    decide

/-! ## C10 — the append-format fallback -/

/-- A concrete append state whose cache holds one pipe-parsed record. -/
def stC10 : PState :=
  ⟨[⟨"08:00:00", "1.1.1", "N/A", "1/2/3", "N/A", "5",
     "08:00:00 1.1.1 N/A 1/2/3 N/A 5"⟩], fun _ => []⟩

/-- Counterexample to the claim's "only if": with the format detected
(`"a;b"` is classified as CSV) but no line parseable,
`append_new_log_lines` still returns an empty list and leaves the cache
and history unchanged. -/
theorem c10_counterexample :
    detect_log_format (["a;b"].take MIN_LOG_FORMAT_CHECK_LINES) = some LogFmt.csv ∧
    (appendNewLogLines ["a;b"] pdEmpty stC10 none none).1 = [] ∧
    ((appendNewLogLines ["a;b"] pdEmpty stC10 none none).2).cache = stC10.cache ∧
    ∀ ga, ((appendNewLogLines ["a;b"] pdEmpty stC10 none none).2).hist ga = stC10.hist ga := by
  refine ⟨by decide, by decide, by decide, fun ga => rfl⟩

/-- C10 amended: when the new lines themselves yield no format and the
cache is non-empty, the format is re-detected from the pipe-style line
simulated from the first cached record and the new lines are parsed with
the resulting format; if the format is still undetermined the call
returns `[]` and leaves cache and history unchanged (an empty result
with unchanged state also occurs when the format is determined but no
new line parses). -/
theorem c10_amended_fallback (lines : List String) (pd : ProjectData) (st : PState)
    (tfs tfe : Option Nat) (first : CacheItem) (rest : List CacheItem)
    (hdet : detect_log_format (lines.take MIN_LOG_FORMAT_CHECK_LINES) = none)
    (hcache : st.cache = first :: rest) :
    (∀ fmt, detect_log_format [simulatedLine first] = some fmt →
      appendNewLogLines lines pd st tfs tfe =
        ((parseLinesInternal lines pd fmt tfs tfe).2,
         ⟨st.cache ++ (parseLinesInternal lines pd fmt tfs tfe).2,
          buildHist st.hist (parseLinesInternal lines pd fmt tfs tfe).1⟩)) ∧
    (detect_log_format [simulatedLine first] = none →
      appendNewLogLines lines pd st tfs tfe = ([], st)) := by
  constructor
  · intro fmt hsim
    have hres : resolveAppendFormat lines st.cache = some fmt := by
      rw [resolveAppendFormat.eq_def, hdet, hcache]
      simpa using hsim
    rw [appendNewLogLines, hres]
  · intro hsim
    have hres : resolveAppendFormat lines st.cache = none := by
      rw [resolveAppendFormat.eq_def, hdet, hcache]
      simpa using hsim
    rw [appendNewLogLines, hres]

/-- Witness for the amended C10: undetectable new lines are parsed with
the pipe format recovered from the cached record's simulated line. -/
theorem c10_amended_fallback_witness :
    appendNewLogLines ["11:00:00|1.1.2|x|1/2/4|y|7"] pdEmpty stC10 none none =
      ((parseLinesInternal ["11:00:00|1.1.2|x|1/2/4|y|7"] pdEmpty LogFmt.pipe none none).2,
       ⟨stC10.cache ++
          (parseLinesInternal ["11:00:00|1.1.2|x|1/2/4|y|7"] pdEmpty LogFmt.pipe none none).2,
        buildHist stC10.hist
          (parseLinesInternal ["11:00:00|1.1.2|x|1/2/4|y|7"] pdEmpty LogFmt.pipe none none).1⟩) :=
  (c10_amended_fallback ["11:00:00|1.1.2|x|1/2/4|y|7"] pdEmpty stC10 none none _ []
    (by decide) rfl).1 LogFmt.pipe (by decide)

/-! ## C4 — truncation handling of the tail tracker -/

/-- A two-line log file contents, fully loaded before the shrink. -/
def bigLogContent : String :=
  "09:00:00 | 1.1.1 | x | 1/2/3 | y | 5\n09:10:00 | 1.1.1 | x | 1/2/3 | y | 6\n"

/-- The shrunken (truncated/rotated) contents of the same file. -/
def smallLogContent : String :=
  "08:00:00 | 1.1.1 | x | 1/2/3 | y | 4\n"

/-- Counterexample to C4: after a full load of the larger file, a poll
tick on the shrunken file (new mtime) performs no full reload: the
outcome is a silent no-op, the cache keeps the pre-truncation records,
the remembered offset is kept, and the cache differs from what a full
reload of the shrunken file would produce. -/
theorem c4_counterexample :
    (efficientLogTail smallLogContent 2 pdEmpty
        (loadLogFileDataOnly bigLogContent 1 pdEmpty none none) none none).1
      = TailOutcome.noChange ∧
    TailOutcome.noChange ≠ TailOutcome.fullReload ∧
    ((efficientLogTail smallLogContent 2 pdEmpty
        (loadLogFileDataOnly bigLogContent 1 pdEmpty none none) none none).2).cache
      = (loadLogFileDataOnly bigLogContent 1 pdEmpty none none).cache ∧
    ((efficientLogTail smallLogContent 2 pdEmpty
        (loadLogFileDataOnly bigLogContent 1 pdEmpty none none) none none).2).lastPos
      = (loadLogFileDataOnly bigLogContent 1 pdEmpty none none).lastPos ∧
    (loadLogFileDataOnly smallLogContent 2 pdEmpty none none).cache
      ≠ (loadLogFileDataOnly bigLogContent 1 pdEmpty none none).cache := by
  refine ⟨by decide, by decide, by decide, by decide, by decide⟩

/-- C4 amended: a poll tick never transitions to a full reload.  With an
unchanged mtime it does nothing; with a changed mtime it always reads
from the remembered offset — when the file shrank below that offset the
read yields no lines and the tick records the new mtime, keeps the
offset, and leaves cache and history unchanged. -/
theorem c4_amended_no_reload (content : String) (mtime : Nat) (pd : ProjectData)
    (st : TailState) (tfs tfe : Option Nat) :
    (efficientLogTail content mtime pd st tfs tfe).1 ≠ TailOutcome.fullReload ∧
    (some mtime = st.lastMtime →
      efficientLogTail content mtime pd st tfs tfe = (TailOutcome.noChange, st)) ∧
    (some mtime ≠ st.lastMtime → content.length ≤ st.lastPos →
      efficientLogTail content mtime pd st tfs tfe =
        (TailOutcome.noChange, ⟨some mtime, st.lastPos, st.cache, st.hist⟩)) := by
  refine ⟨?_, fun h => ?_, fun hm hlen => ?_⟩
  · simp only [efficientLogTail]
    split
    · simp
    · split
      · simp
      · split
        · simp
        · simp
  · rw [efficientLogTail, if_pos h]
  · have hdrop : content.toList.drop st.lastPos = [] := by
      apply List.drop_eq_nil_of_le
      simpa using hlen
    simp only [efficientLogTail, if_neg hm, hdrop]
    simp [readLines, readLinesAux, Nat.max_eq_left hlen]

/-- A concrete tail-tracker state for the C4 witness. -/
def stC4 : TailState := ⟨some 1, 5, [], fun _ => []⟩

/-- Witness for the amended C4 at concrete inputs. -/
theorem c4_amended_no_reload_witness :
    efficientLogTail "x" 1 pdEmpty stC4 none none = (TailOutcome.noChange, stC4) ∧
    efficientLogTail "x" 2 pdEmpty stC4 none none =
      (TailOutcome.noChange, ⟨some 2, 5, [], fun _ => []⟩) := by
  constructor
  · exact (c4_amended_no_reload "x" 1 pdEmpty stC4 none none).2.1 rfl
  · exact (c4_amended_no_reload "x" 2 pdEmpty stC4 none none).2.2 (by decide) (by decide)

/-! ## C3 — tail equivalence -/

/-- Full load of the first chunk followed by `append_new_log_lines` for
each later chunk (the incremental path of the tail tracker). -/
def incrementalLoad (pd : ProjectData) (tfs tfe : Option Nat) (c1 : List String)
    (rest : List (List String)) : PState :=
  let r := parseAndCacheLogData c1 pd tfs tfe
  rest.foldl (fun st c => (appendNewLogLines c pd st tfs tfe).2) ⟨r.2, r.1⟩

/-- Counterexample to C3 as stated: a CSV first chunk followed by a
space-free pipe-ish line.  The full load detects CSV and skips the
second line (no `;` in it); the incremental path cannot detect a format
for the second chunk, falls back to the simulated pipe line of the first
cached record, detects pipe, and parses the second line into a record.
The two caches differ (2 records vs 1). -/
theorem c3_counterexample :
    (incrementalLoad pdEmpty none none ["10:00:00;1.1.1;a;b;1/2/3;c;42"]
        [["11:00:00|1.1.2|x|1/2/4|y|7"]]).cache
      ≠ (parseAndCacheLogData
          (["10:00:00;1.1.1;a;b;1/2/3;c;42"] ++ [["11:00:00|1.1.2|x|1/2/4|y|7"]].flatten)
          pdEmpty none none).2 ∧
    ((incrementalLoad pdEmpty none none ["10:00:00;1.1.1;a;b;1/2/3;c;42"]
        [["11:00:00|1.1.2|x|1/2/4|y|7"]]).cache).length = 2 ∧
    ((parseAndCacheLogData
        (["10:00:00;1.1.1;a;b;1/2/3;c;42"] ++ [["11:00:00|1.1.2|x|1/2/4|y|7"]].flatten)
        pdEmpty none none).2).length = 1 := by
  refine ⟨by decide, by decide, by decide⟩

/-- Evaluation of the incremental fold when every later chunk is
detected as the common format: the cache gains exactly the chunks'
records and each history key gains exactly its items, in order. -/
theorem foldAppend_eval (pd : ProjectData) (tfs tfe : Option Nat) (fmt : LogFmt) :
    ∀ (rest : List (List String)) (st : PState),
      (∀ c ∈ rest, detect_log_format (c.take MIN_LOG_FORMAT_CHECK_LINES) = some fmt) →
      ((rest.foldl (fun st c => (appendNewLogLines c pd st tfs tfe).2) st).cache
          = st.cache ++ (parseLinesInternal rest.flatten pd fmt tfs tfe).2) ∧
      (∀ ga, (rest.foldl (fun st c => (appendNewLogLines c pd st tfs tfe).2) st).hist ga
          = st.hist ga ++ perGaEntries (parseLinesInternal rest.flatten pd fmt tfs tfe).1 ga) := by
  intro rest
  induction rest with
  | nil =>
    intro st _
    constructor
    · simp [parseLinesInternal]
    · intro ga
      simp [parseLinesInternal, perGaEntries]
  | cons c cs ih =>
    intro st hdet
    have hc := hdet c (List.mem_cons_self c cs)
    have hcs : ∀ x ∈ cs, detect_log_format (x.take MIN_LOG_FORMAT_CHECK_LINES) = some fmt :=
      fun x hx => hdet x (List.mem_cons_of_mem c hx)
    have hres : resolveAppendFormat c st.cache = some fmt := by
      rw [resolveAppendFormat.eq_def, hc]
    have hstep : appendNewLogLines c pd st tfs tfe =
        ((parseLinesInternal c pd fmt tfs tfe).2,
         ⟨st.cache ++ (parseLinesInternal c pd fmt tfs tfe).2,
          buildHist st.hist (parseLinesInternal c pd fmt tfs tfe).1⟩) := by
      rw [appendNewLogLines, hres]
    have hjoin : (c :: cs).flatten = c ++ cs.flatten := List.flatten_cons
    have hparse := parseLinesInternal_append c cs.flatten pd fmt tfs tfe
    obtain ⟨ihc, ihh⟩ := ih
      ⟨st.cache ++ (parseLinesInternal c pd fmt tfs tfe).2,
       buildHist st.hist (parseLinesInternal c pd fmt tfs tfe).1⟩ hcs
    constructor
    · rw [List.foldl_cons, hstep, hjoin, hparse]
      rw [ihc]
      simp [List.append_assoc]
    · intro ga
      rw [List.foldl_cons, hstep, hjoin, hparse]
      rw [ihh ga]
      simp only [buildHist_eval, perGaEntries_append]
      simp [List.append_assoc]

/-- C3 amended: incremental tailing agrees with a single full load
provided every stage resolves the same format (the first chunk's sniff,
each later chunk's sniff, and the full file's sniff all yield `fmt`) and
each key's payload items occur in nondecreasing timestamp order across
the whole file; without these provisos the two paths can disagree. -/
theorem c3_amended_tail_equivalence (pd : ProjectData) (tfs tfe : Option Nat)
    (c1 : List String) (rest : List (List String)) (fmt : LogFmt)
    (h1 : detect_log_format ((c1.take MIN_LOG_FORMAT_CHECK_LINES).filter isContentLine)
        = some fmt)
    (h2 : ∀ c ∈ rest, detect_log_format (c.take MIN_LOG_FORMAT_CHECK_LINES) = some fmt)
    (hF : detect_log_format
        (((c1 ++ rest.flatten).take MIN_LOG_FORMAT_CHECK_LINES).filter isContentLine)
        = some fmt)
    (hsorted : ∀ ga, List.Sorted phLe
        (perGaEntries (parseLinesInternal (c1 ++ rest.flatten) pd fmt tfs tfe).1 ga)) :
    (incrementalLoad pd tfs tfe c1 rest).cache
        = (parseAndCacheLogData (c1 ++ rest.flatten) pd tfs tfe).2 ∧
    ∀ ga, (incrementalLoad pd tfs tfe c1 rest).hist ga
        = (parseAndCacheLogData (c1 ++ rest.flatten) pd tfs tfe).1 ga := by
  have hinit : parseAndCacheLogData c1 pd tfs tfe =
      (fun ga => List.insertionSort phLe (buildHist (fun _ => [])
        (parseLinesInternal c1 pd fmt tfs tfe).1 ga),
       (parseLinesInternal c1 pd fmt tfs tfe).2) := by
    rw [parseAndCacheLogData, h1]
  have hfullEq : parseAndCacheLogData (c1 ++ rest.flatten) pd tfs tfe =
      (fun ga => List.insertionSort phLe (buildHist (fun _ => [])
        (parseLinesInternal (c1 ++ rest.flatten) pd fmt tfs tfe).1 ga),
       (parseLinesInternal (c1 ++ rest.flatten) pd fmt tfs tfe).2) := by
    rw [parseAndCacheLogData, hF]
  have hparse := parseLinesInternal_append c1 rest.flatten pd fmt tfs tfe
  have hperga : ∀ ga,
      perGaEntries (parseLinesInternal (c1 ++ rest.flatten) pd fmt tfs tfe).1 ga
        = perGaEntries (parseLinesInternal c1 pd fmt tfs tfe).1 ga
          ++ perGaEntries (parseLinesInternal rest.flatten pd fmt tfs tfe).1 ga := by
    intro ga
    rw [hparse]
    exact perGaEntries_append _ _ ga
  have hsorted1 : ∀ ga, List.Sorted phLe
      (perGaEntries (parseLinesInternal c1 pd fmt tfs tfe).1 ga) := by
    intro ga
    have h := hsorted ga
    rw [hperga ga] at h
    exact List.Pairwise.sublist (List.sublist_append_left _ _) h
  have hunfold : incrementalLoad pd tfs tfe c1 rest =
      rest.foldl (fun st c => (appendNewLogLines c pd st tfs tfe).2)
        ⟨(parseLinesInternal c1 pd fmt tfs tfe).2,
         fun ga => List.insertionSort phLe (buildHist (fun _ => [])
           (parseLinesInternal c1 pd fmt tfs tfe).1 ga)⟩ := by
    rw [incrementalLoad, hinit]
  obtain ⟨hfc, hfh⟩ := foldAppend_eval pd tfs tfe fmt rest
    ⟨(parseLinesInternal c1 pd fmt tfs tfe).2,
     fun ga => List.insertionSort phLe (buildHist (fun _ => [])
       (parseLinesInternal c1 pd fmt tfs tfe).1 ga)⟩ h2
  constructor
  · rw [hunfold, hfc, hfullEq, hparse]
  · intro ga
    rw [hunfold, hfh ga, hfullEq]
    have hbh1 : buildHist (fun _ => ([] : List PHEntry))
        (parseLinesInternal c1 pd fmt tfs tfe).1 ga
          = perGaEntries (parseLinesInternal c1 pd fmt tfs tfe).1 ga := by
      rw [buildHist_eval]
      simp
    have hbhF : buildHist (fun _ => ([] : List PHEntry))
        (parseLinesInternal (c1 ++ rest.flatten) pd fmt tfs tfe).1 ga
          = perGaEntries (parseLinesInternal (c1 ++ rest.flatten) pd fmt tfs tfe).1 ga := by
      rw [buildHist_eval]
      simp
    show List.insertionSort phLe (buildHist (fun _ => [])
        (parseLinesInternal c1 pd fmt tfs tfe).1 ga)
        ++ perGaEntries (parseLinesInternal rest.flatten pd fmt tfs tfe).1 ga
      = List.insertionSort phLe (buildHist (fun _ => [])
        (parseLinesInternal (c1 ++ rest.flatten) pd fmt tfs tfe).1 ga)
    rw [hbh1, hbhF, List.Sorted.insertionSort_eq (hsorted1 ga),
      List.Sorted.insertionSort_eq (hsorted ga), hperga ga]

/-- Witness for the amended C3: two pipe chunks with ascending
timestamps tail to the same cache and history as one full load. -/
theorem c3_amended_tail_equivalence_witness :
    (incrementalLoad pdEmpty none none [goodPipeLine]
        [["09:00:00 | 1.1.1 | x | 1/2/3 | y | 6"]]).cache
      = (parseAndCacheLogData ([goodPipeLine] ++
          [["09:00:00 | 1.1.1 | x | 1/2/3 | y | 6"]].flatten) pdEmpty none none).2 ∧
    (incrementalLoad pdEmpty none none [goodPipeLine]
        [["09:00:00 | 1.1.1 | x | 1/2/3 | y | 6"]]).hist "1/2/3"
      = (parseAndCacheLogData ([goodPipeLine] ++
          [["09:00:00 | 1.1.1 | x | 1/2/3 | y | 6"]].flatten) pdEmpty none none).1 "1/2/3" := by
  have h2 : ∀ c ∈ [["09:00:00 | 1.1.1 | x | 1/2/3 | y | 6"]],
      detect_log_format (c.take MIN_LOG_FORMAT_CHECK_LINES) = some LogFmt.pipe := by
    intro c hc
    rw [List.mem_singleton.mp hc]
    decide
  have hs : ∀ ga, List.Sorted phLe (perGaEntries (parseLinesInternal
      ([goodPipeLine] ++ [["09:00:00 | 1.1.1 | x | 1/2/3 | y | 6"]].flatten)
      pdEmpty LogFmt.pipe none none).1 ga) := by
    intro ga
    have hitems : (parseLinesInternal
        ([goodPipeLine] ++ [["09:00:00 | 1.1.1 | x | 1/2/3 | y | 6"]].flatten)
        pdEmpty LogFmt.pipe none none).1
        = [⟨"1/2/3", "08:00:00", "5"⟩, ⟨"1/2/3", "09:00:00", "6"⟩] := by decide
    rw [hitems]
    by_cases hga : ("1/2/3" : String) = ga
    · rw [← hga]
      decide
    · have hnone : perGaEntries
          [⟨"1/2/3", "08:00:00", "5"⟩, ⟨"1/2/3", "09:00:00", "6"⟩] ga = [] := by
        simp [perGaEntries, List.filter_cons, hga]
      rw [hnone]
      exact List.sorted_nil
  have h := c3_amended_tail_equivalence pdEmpty none none [goodPipeLine]
    [["09:00:00 | 1.1.1 | x | 1/2/3 | y | 6"]] LogFmt.pipe (by decide) h2 (by decide) hs
  exact ⟨h.1, h.2 "1/2/3"⟩
